import Mathlib

/-!
Shallow embedding of the AutofishMinecraft behavioral core in Lean 4,
with theorems settling the specification claims about:

* `AutoCalibrator.finish_calibration`  (src/calibration.py)
* `VolumeMonitor._check_trigger`       (src/src/monitoring.py)
* `HumanProfile` generation and (de)serialization,
  `HumanLikeRandomizer.get_humanized_delay` and
  `get_click_position_variation`       (src/src/human_behavior.py)

Python floats are modelled as real numbers; every call to `time.time()`,
`datetime.now()` and every RNG draw is an explicit input.  A draw
`random.random()` is a real in `[0, 1]`, `random.uniform(a, b)` a real in
`[a, b]`, `random.gauss`/`np.random.normal` an arbitrary real (the support
of a gaussian), and `np.random.lognormal(mu, sigma)` is `exp(mu + sigma*z)`
for a standard-normal draw `z`.
-/

namespace Autofish

/-- Python's `max(a, min(b, x))` idiom used for clamping throughout the repo. -/
noncomputable def pyClamp (lo hi x : ℝ) : ℝ := max lo (min hi x)

/-- `np.mean` of a list of floats (junk value 0 on the empty list,
where numpy would return NaN). -/
noncomputable def npMean (l : List ℝ) : ℝ := l.sum / l.length

/-- `np.std` of a list of floats: population standard deviation (ddof = 0). -/
noncomputable def npStd (l : List ℝ) : ℝ :=
  Real.sqrt ((l.map (fun x => (x - npMean l) ^ 2)).sum / l.length)

/-- `np.min` of a list of floats (junk value 0 on the empty list). -/
noncomputable def npMin : List ℝ → ℝ
  | [] => 0
  | x :: xs => xs.foldl min x

/-- Python's `round` to the nearest integer: round-half-to-even
(banker's rounding), as documented for `round()` on floats. -/
noncomputable def pyRoundInt (x : ℝ) : ℤ :=
  if Int.fract x = 1 / 2 then (if Even ⌊x⌋ then ⌊x⌋ else ⌊x⌋ + 1) else round x

/-- Python's `round(x, 1)`: round to one decimal place. -/
noncomputable def round1 (x : ℝ) : ℝ := (pyRoundInt (10 * x) : ℝ) / 10

theorem pyRoundInt_intCast (n : ℤ) : pyRoundInt (n : ℝ) = n := by
  unfold pyRoundInt
  rw [Int.fract_intCast]
  norm_num

/-! ## AutoCalibrator (src/calibration.py)

Only the fields read or written by `finish_calibration` are modelled;
`callback`/`progress_callback` are functions held by the object, and the
value passed to `callback` is returned explicitly (`none` models
`callback(None)`). -/

structure CalState where
  calibration_data : List ℝ
  peak_values : List ℝ
  is_calibrating : Bool
  calibration_duration : ℝ
  start_time : ℝ

/-- `AutoCalibrator.finish_calibration`.  Returns the new object state and
the argument passed to the completion callback. -/
noncomputable def finish_calibration (s : CalState) : CalState × Option ℝ :=
  if s.calibration_data = [] then
    ({ s with is_calibrating := false }, none)
  else
    let threshold :=
      if 2 ≤ s.peak_values.length then
        -- threshold = min_peak * 0.85
        npMin s.peak_values * 0.85
      else
        -- fallback: threshold = mean + 1.5 * std
        npMean s.calibration_data + 1.5 * npStd s.calibration_data
    -- threshold = round(threshold, 1); threshold = max(4.0, min(9.0, threshold))
    ({ s with is_calibrating := false }, some (pyClamp 4.0 9.0 (round1 threshold)))

/-- Spec formula: with ≥2 peaks, `round(min(peaks) × 0.85, 1)` clamped to
`[4.0, 9.0]`.  Written from the spec's words, to be compared with the
code-derived `finish_calibration`. -/
noncomputable def specPeakThreshold (peaks : List ℝ) : ℝ :=
  min 9.0 (max 4.0 (round1 (npMin peaks * 0.85)))

/-- Spec formula: with <2 peaks, `round(mean(samples) + 1.5×stddev(samples), 1)`
clamped to `[4.0, 9.0]`. -/
noncomputable def specFallbackThreshold (samples : List ℝ) : ℝ :=
  min 9.0 (max 4.0 (round1 (npMean samples + 1.5 * npStd samples)))

theorem pyClamp_eq_min_max (lo hi x : ℝ) (h : lo ≤ hi) :
    pyClamp lo hi x = min hi (max lo x) := by
  unfold pyClamp
  rw [max_min_distrib_left, max_eq_right h]

/-- **C1.**  `finish_calibration` invokes the completion callback with `none`
when no samples were collected; otherwise with the peak-based threshold
`round(min(peaks)×0.85, 1)` clamped to `[4, 9]` when at least two peaks were
recorded, and with the statistical fallback
`round(mean + 1.5·std, 1)` clamped to `[4, 9]` otherwise. -/
theorem calibration_finish_matches_spec (s : CalState) :
    (s.calibration_data = [] → (finish_calibration s).2 = none) ∧
    (s.calibration_data ≠ [] → 2 ≤ s.peak_values.length →
      (finish_calibration s).2 = some (specPeakThreshold s.peak_values)) ∧
    (s.calibration_data ≠ [] → s.peak_values.length < 2 →
      (finish_calibration s).2 = some (specFallbackThreshold s.calibration_data)) := by
  refine ⟨fun h => ?_, fun h hp => ?_, fun h hp => ?_⟩
  · simp [finish_calibration, h]
  · simp only [finish_calibration, if_neg h, if_pos hp, specPeakThreshold]
    rw [pyClamp_eq_min_max _ _ _ (by norm_num)]
  · simp only [finish_calibration, if_neg h, if_neg (not_le.mpr hp), specFallbackThreshold]
    rw [pyClamp_eq_min_max _ _ _ (by norm_num)]

/-- Concrete run of C1: samples `[1, 3]` with flagged peaks `[10, 8]` yield
callback value `round(8 × 0.85, 1) = 6.8`. -/
theorem calibration_finish_matches_spec_witness :
    (finish_calibration ⟨[1, 3], [10, 8], true, 30, 0⟩).2 = some 6.8 := by
  have h := (calibration_finish_matches_spec ⟨[1, 3], [10, 8], true, 30, 0⟩).2.1
    (by simp) (by simp)
  rw [h]
  have h68 : npMin [(10 : ℝ), 8] * 0.85 = ((68 : ℤ) : ℝ) / 10 := by
    unfold npMin
    norm_num
  unfold specPeakThreshold round1
  rw [h68, show (10 : ℝ) * (((68 : ℤ) : ℝ) / 10) = ((68 : ℤ) : ℝ) by norm_num,
    pyRoundInt_intCast]
  norm_num [min_def, max_def]

/-! ## VolumeMonitor._check_trigger (src/src/monitoring.py)

The fields of `AppState` read or written by `_check_trigger`, with
`state.detection.threshold` and `state.detection.cooldown_period`
flattened in.  `trigger_count` is declared `int` but becomes a float at
runtime (`-= 0.5`), so it is a real here. -/

structure TriggerState where
  baseline_volume : ℝ
  trigger_count : ℝ
  last_trigger_time : ℝ
  last_catch_time : ℝ
  threshold : ℝ
  cooldown_period : ℝ

/-- `VolumeMonitor._check_trigger(normalized)` with `time.time()` passed in
as `current_time`.  The boolean reports whether `on_trigger` was fired. -/
noncomputable def check_trigger (s : TriggerState) (normalized current_time : ℝ) :
    TriggerState × Bool :=
  if normalized > s.threshold ∧ normalized > s.baseline_volume * 1.2 then
    if current_time - s.last_trigger_time > s.cooldown_period then
      -- source: trigger_count += 1; if trigger_count >= 2: fire and reset
      if s.trigger_count + 1 ≥ 2 then
        ({ s with trigger_count := 0, last_trigger_time := current_time,
                  last_catch_time := current_time }, true)
      else
        ({ s with trigger_count := s.trigger_count + 1 }, false)
    else
      (s, false)
  else
    if s.trigger_count > 0 then
      ({ s with trigger_count := s.trigger_count - 0.5 }, false)
    else
      (s, false)

/-- Run `_check_trigger` over a time series of `(normalized, current_time)`
samples, collecting the fired flags in order. -/
noncomputable def runTrigger (s : TriggerState) : List (ℝ × ℝ) → TriggerState × List Bool
  | [] => (s, [])
  | p :: ps =>
    let r := check_trigger s p.1 p.2
    let rest := runTrigger r.1 ps
    (rest.1, r.2 :: rest.2)

/-- The full trigger condition of the spec: above threshold, above
1.2×baseline, and past the cooldown window. -/
def Qualifies (s : TriggerState) (normalized current_time : ℝ) : Prop :=
  normalized > s.threshold ∧ normalized > s.baseline_volume * 1.2 ∧
    current_time - s.last_trigger_time > s.cooldown_period

/-- A step on a non-qualifying sample never fires, never increases
`trigger_count`, and leaves every other field unchanged. -/
theorem check_trigger_not_qualifies (s : TriggerState) (n t : ℝ)
    (hq : ¬ Qualifies s n t) :
    (check_trigger s n t).2 = false ∧
    (check_trigger s n t).1.trigger_count ≤ s.trigger_count ∧
    (check_trigger s n t).1.baseline_volume = s.baseline_volume ∧
    (check_trigger s n t).1.threshold = s.threshold ∧
    (check_trigger s n t).1.cooldown_period = s.cooldown_period ∧
    (check_trigger s n t).1.last_trigger_time = s.last_trigger_time := by
  unfold check_trigger
  by_cases h1 : n > s.threshold ∧ n > s.baseline_volume * 1.2
  · have h3 : ¬ (t - s.last_trigger_time > s.cooldown_period) := fun hc => hq ⟨h1.1, h1.2, hc⟩
    rw [if_pos h1, if_neg h3]
    exact ⟨rfl, le_refl _, rfl, rfl, rfl, rfl⟩
  · rw [if_neg h1]
    by_cases h4 : s.trigger_count > 0
    · rw [if_pos h4]
      refine ⟨rfl, ?_, rfl, rfl, rfl, rfl⟩
      show s.trigger_count - 0.5 ≤ s.trigger_count
      linarith
    · rw [if_neg h4]
      exact ⟨rfl, le_refl _, rfl, rfl, rfl, rfl⟩

/-- A step on a qualifying sample from `trigger_count ≤ 0` increments the
count without firing and leaves every other field unchanged. -/
theorem check_trigger_qualifies_low (s : TriggerState) (n t : ℝ)
    (hq : Qualifies s n t) (htc : s.trigger_count ≤ 0) :
    check_trigger s n t = ({ s with trigger_count := s.trigger_count + 1 }, false) := by
  obtain ⟨h1, h2, h3⟩ := hq
  unfold check_trigger
  rw [if_pos ⟨h1, h2⟩, if_pos h3, if_neg (by linarith)]

/-- A step on a qualifying sample from `trigger_count = 1` fires: the count
resets to 0 and `last_trigger_time` becomes the firing time. -/
theorem check_trigger_qualifies_fire (s : TriggerState) (n t : ℝ)
    (hq : Qualifies s n t) (htc : s.trigger_count = 1) :
    check_trigger s n t =
      ({ s with trigger_count := 0, last_trigger_time := t, last_catch_time := t }, true) := by
  obtain ⟨h1, h2, h3⟩ := hq
  unfold check_trigger
  rw [if_pos ⟨h1, h2⟩, if_pos h3, if_pos (by rw [htc]; norm_num)]

/-- Running over any all-non-qualifying suffix: no step fires, the count never
increases (also at every intermediate point), and the static fields survive. -/
theorem runTrigger_not_qualifies (s0 : TriggerState) (inputs : List (ℝ × ℝ)) :
    ∀ s : TriggerState,
    s.baseline_volume = s0.baseline_volume → s.threshold = s0.threshold →
    s.cooldown_period = s0.cooldown_period → s.last_trigger_time = s0.last_trigger_time →
    (∀ p ∈ inputs, ¬ Qualifies s0 p.1 p.2) →
    (∀ b ∈ (runTrigger s inputs).2, b = false) ∧
    (∀ k : ℕ, (runTrigger s (inputs.take k)).1.trigger_count ≤ s.trigger_count) := by
  induction inputs with
  | nil =>
    intro s _ _ _ _ _
    exact ⟨by simp [runTrigger], fun k => by simp [runTrigger]⟩
  | cons p ps ih =>
    intro s hb hth hcd hlt hall
    have hps : ¬ Qualifies s0 p.1 p.2 := hall p (by simp)
    have hq : ¬ Qualifies s p.1 p.2 := by
      unfold Qualifies at hps ⊢
      rw [hb, hth, hcd, hlt]
      exact hps
    obtain ⟨hf, htc, hb', hth', hcd', hlt'⟩ := check_trigger_not_qualifies s p.1 p.2 hq
    have ih' := ih (check_trigger s p.1 p.2).1 (hb'.trans hb) (hth'.trans hth)
      (hcd'.trans hcd) (hlt'.trans hlt) (fun q hq' => hall q (by simp [hq']))
    constructor
    · intro b hb''
      simp only [runTrigger, List.mem_cons] at hb''
      rcases hb'' with h | h
      · rw [h, hf]
      · exact ih'.1 b h
    · intro k
      cases k with
      | zero => simp [runTrigger]
      | succ j =>
        rw [List.take_succ_cons]
        simp only [runTrigger]
        exact le_trans (ih'.2 j) htc

/-- Composing runs over list concatenation. -/
theorem runTrigger_append (s : TriggerState) (l1 l2 : List (ℝ × ℝ)) :
    runTrigger s (l1 ++ l2) =
      ((runTrigger (runTrigger s l1).1 l2).1,
        (runTrigger s l1).2 ++ (runTrigger (runTrigger s l1).1 l2).2) := by
  induction l1 generalizing s with
  | nil => simp [runTrigger]
  | cons p ps ih => simp [runTrigger, ih]

/-- **C3.**  Two-hit debounce.  (a) From `trigger_count = 0`, a volume
sequence with exactly one qualifying sample fires no action and
`trigger_count` stays ≤ 1 throughout.  (b) Two consecutive qualifying
samples fire exactly once: the first step does not fire, the second does,
resetting `trigger_count` to 0 and `last_trigger_time` to the firing time. -/
theorem trigger_debounce :
    (∀ (s : TriggerState) (pre post : List (ℝ × ℝ)) (q : ℝ × ℝ),
      s.trigger_count = 0 →
      (∀ p ∈ pre, ¬ Qualifies s p.1 p.2) →
      Qualifies s q.1 q.2 →
      (∀ p ∈ post, ¬ Qualifies s p.1 p.2) →
      (∀ b ∈ (runTrigger s (pre ++ q :: post)).2, b = false) ∧
      (∀ k : ℕ, (runTrigger s ((pre ++ q :: post).take k)).1.trigger_count ≤ 1)) ∧
    (∀ (s : TriggerState) (n1 t1 n2 t2 : ℝ),
      s.trigger_count = 0 →
      Qualifies s n1 t1 →
      Qualifies ({ s with trigger_count := 1 }) n2 t2 →
      (check_trigger s n1 t1).2 = false ∧
      (check_trigger (check_trigger s n1 t1).1 n2 t2).2 = true ∧
      (check_trigger (check_trigger s n1 t1).1 n2 t2).1.trigger_count = 0 ∧
      (check_trigger (check_trigger s n1 t1).1 n2 t2).1.last_trigger_time = t2) := by
  constructor
  · intro s pre post q htc hpre hq hpost
    induction pre generalizing s with
    | nil =>
      have hstep := check_trigger_qualifies_low s q.1 q.2 hq (le_of_eq htc)
      have hpost' := runTrigger_not_qualifies s post ({ s with trigger_count := s.trigger_count + 1 })
        rfl rfl rfl rfl hpost
      constructor
      · intro b hb
        simp only [List.nil_append, runTrigger, hstep, List.mem_cons] at hb
        rcases hb with h | h
        · exact h
        · exact hpost'.1 b h
      · intro k
        cases k with
        | zero => simp [runTrigger, htc]
        | succ j =>
          simp only [List.nil_append, List.take_succ_cons, runTrigger, hstep]
          calc (runTrigger ({ s with trigger_count := s.trigger_count + 1 }) (post.take j)).1.trigger_count
              ≤ s.trigger_count + 1 := hpost'.2 j
            _ ≤ 1 := by rw [htc]; norm_num
    | cons p ps ih =>
      have hp : ¬ Qualifies s p.1 p.2 := hpre p (by simp)
      obtain ⟨hf, htcle, hb', hth', hcd', hlt'⟩ := check_trigger_not_qualifies s p.1 p.2 hp
      -- From trigger_count = 0, a non-qualifying step leaves the state unchanged:
      -- the decay branch is guarded by trigger_count > 0.
      have hstep : check_trigger s p.1 p.2 = (s, false) := by
        unfold Qualifies at hp
        push_neg at hp
        unfold check_trigger
        split_ifs with h1 h2 h3 h4
        · exact absurd (h3) (by linarith [hp h1.1 h1.2])
        · exact absurd (h3) (by linarith [hp h1.1 h1.2])
        · rfl
        · exact absurd h4 (by rw [htc]; norm_num)
        · rfl
      have ih' := ih s htc (fun r hr => hpre r (by simp [hr])) hq hpost
      constructor
      · intro b hb
        simp only [List.cons_append, runTrigger, hstep, List.mem_cons] at hb
        rcases hb with h | h
        · exact h
        · exact ih'.1 b h
      · intro k
        cases k with
        | zero => simp [runTrigger, htc]
        | succ j =>
          simp only [List.cons_append, List.take_succ_cons, runTrigger, hstep]
          exact ih'.2 j
  · intro s n1 t1 n2 t2 htc hq1 hq2
    have hstep1 := check_trigger_qualifies_low s n1 t1 hq1 (le_of_eq htc)
    rw [hstep1]
    have h1 : ({ s with trigger_count := s.trigger_count + 1 }) = ({ s with trigger_count := 1 }) := by
      rw [htc]; norm_num
    rw [h1]
    have hstep2 := check_trigger_qualifies_fire ({ s with trigger_count := 1 }) n2 t2 hq2 rfl
    rw [hstep2]
    exact ⟨rfl, rfl, rfl, rfl⟩

/-- Concrete run of C3(b): threshold 8, cooldown 2, baseline 1, two samples
of volume 9 at times 10 and 10.05 fire on the second sample and reset the
count, stamping the firing time. -/
theorem trigger_debounce_witness :
    (check_trigger ⟨1, 0, 0, 0, 8, 2⟩ 9 10).2 = false ∧
    (check_trigger (check_trigger ⟨1, 0, 0, 0, 8, 2⟩ 9 10).1 9 10.05).2 = true ∧
    (check_trigger (check_trigger ⟨1, 0, 0, 0, 8, 2⟩ 9 10).1 9 10.05).1.trigger_count = 0 := by
  have h := trigger_debounce.2 ⟨1, 0, 0, 0, 8, 2⟩ 9 10 9 10.05 rfl
    (by unfold Qualifies; norm_num) (by unfold Qualifies; norm_num)
  exact ⟨h.1, h.2.1, h.2.2.1⟩

/-- Counterexample to **C4** as stated: a sample that is above threshold and
above 1.2×baseline but still inside the cooldown window makes the spec's
three-part trigger condition fail, yet the code leaves a positive
`trigger_count` unchanged instead of decaying it by 0.5. -/
theorem trigger_decay_claim_false :
    ¬ Qualifies ⟨1, 1, 0, 0, 8, 2⟩ 9 1 ∧
    (⟨1, 1, 0, 0, 8, 2⟩ : TriggerState).trigger_count = 1 ∧
    (check_trigger ⟨1, 1, 0, 0, 8, 2⟩ 9 1).1.trigger_count = 1 ∧
    (1 : ℝ) ≠ 1 - 0.5 := by
  refine ⟨?_, rfl, ?_, by norm_num⟩
  · unfold Qualifies
    norm_num
  · unfold check_trigger
    rw [if_pos (by norm_num), if_neg (by norm_num)]

/-- **C4 (amended).**  The 0.5 decay applies exactly when the *volume*
condition (`normalized > threshold` and `normalized > 1.2×baseline`) fails
and `trigger_count` is positive; a non-positive count is left unchanged, and
when the volume condition holds but the cooldown has not elapsed the count
is also unchanged.  Moreover from any state whose count is a nonnegative
half-integer — as in every reachable state — the count stays a nonnegative
half-integer, in particular never drops below 0. -/
theorem trigger_decay_amended (s : TriggerState) (n t : ℝ) :
    (¬ (n > s.threshold ∧ n > s.baseline_volume * 1.2) →
      (0 < s.trigger_count →
        (check_trigger s n t).1.trigger_count = s.trigger_count - 0.5) ∧
      (s.trigger_count ≤ 0 →
        (check_trigger s n t).1.trigger_count = s.trigger_count)) ∧
    ((n > s.threshold ∧ n > s.baseline_volume * 1.2) →
      ¬ (t - s.last_trigger_time > s.cooldown_period) →
      (check_trigger s n t).1.trigger_count = s.trigger_count) ∧
    (∀ k : ℕ, s.trigger_count = (k : ℝ) / 2 →
      0 ≤ (check_trigger s n t).1.trigger_count ∧
      ∃ m : ℕ, (check_trigger s n t).1.trigger_count = (m : ℝ) / 2) := by
  refine ⟨fun hv => ⟨fun hpos => ?_, fun hnp => ?_⟩, fun hv hcd => ?_, fun k hk => ?_⟩
  · unfold check_trigger
    rw [if_neg hv, if_pos hpos]
  · unfold check_trigger
    rw [if_neg hv, if_neg (not_lt.mpr hnp)]
  · unfold check_trigger
    rw [if_pos hv, if_neg hcd]
  · unfold check_trigger
    split_ifs with h1 h2 h3 h4
    · exact ⟨le_refl 0, 0, by norm_num⟩
    · refine ⟨by rw [hk]; positivity, k + 2, ?_⟩
      simp only [TriggerState.trigger_count]
      rw [hk]
      push_cast
      ring
    · exact ⟨by rw [hk]; positivity, k, hk⟩
    · have hk1 : 1 ≤ k := by
        by_contra hlt
        push_neg at hlt
        interval_cases k
        · rw [hk] at h4
          norm_num at h4
      refine ⟨?_, k - 1, ?_⟩
      · simp only [TriggerState.trigger_count]
        rw [hk]
        have : (1 : ℝ) ≤ (k : ℝ) := by exact_mod_cast hk1
        linarith
      · simp only [TriggerState.trigger_count]
        rw [hk]
        have : ((k - 1 : ℕ) : ℝ) = (k : ℝ) - 1 := by
          push_cast [hk1]
          ring
        rw [this]
        ring
    · exact ⟨by rw [hk]; positivity, k, hk⟩

/-- Concrete run of C4 (amended): quiet sample, count 1 → count 0.5; loud
sample inside cooldown leaves count 1 unchanged. -/
theorem trigger_decay_amended_witness :
    (check_trigger ⟨1, 1, 0, 0, 8, 2⟩ 0 0).1.trigger_count = 0.5 ∧
    (check_trigger ⟨1, 1, 0, 0, 8, 2⟩ 9 1).1.trigger_count = 1 := by
  constructor
  · have h := ((trigger_decay_amended ⟨1, 1, 0, 0, 8, 2⟩ 0 0).1 (by norm_num)).1 (by norm_num)
    rw [h]
    norm_num
  · have h := (trigger_decay_amended ⟨1, 1, 0, 0, 8, 2⟩ 9 1).2.1 (by norm_num) (by norm_num)
    rw [h]

/-! ## HumanProfile (src/src/human_behavior.py) -/

structure HumanProfile where
  name : String
  reaction_speed : ℝ
  consistency : ℝ
  fatigue_rate : ℝ
  concentration_level : ℝ
  rhythm_variation : ℝ

/-- `HumanProfile.generate_random`.  The RNG draws are inputs:
`g` is the `random.gauss(1.0, 0.2)` outcome (support: all reals) and
`c`, `f`, `cl` the three `random.betavariate` outcomes (support: `[0, 1]`). -/
noncomputable def generate_random (name : String) (g c f cl : ℝ) : HumanProfile :=
  let reaction_speed := g
  -- people with fast reactions are often less consistent
  let consistency := if reaction_speed > 1.2 then c * 0.8 else c
  let fatigue_rate := f
  let concentration_level := cl
  let rhythm_variation := 1.0 - concentration_level * 0.5
  { name := name
    reaction_speed := pyClamp 0.3 2.0 reaction_speed
    consistency := pyClamp 0.1 1.0 consistency
    fatigue_rate := pyClamp 0.0 1.0 fatigue_rate
    concentration_level := pyClamp 0.0 1.0 concentration_level
    rhythm_variation := pyClamp 0.1 1.0 rhythm_variation }

theorem pyClamp_le (lo hi x : ℝ) (h : lo ≤ hi) : pyClamp lo hi x ≤ hi := by
  unfold pyClamp
  exact max_le h (min_le_left _ _)

theorem le_pyClamp (lo hi x : ℝ) : lo ≤ pyClamp lo hi x := le_max_left _ _

/-- **C5.**  Every profile produced by `generate_random`, for every RNG
outcome, has all five numeric fields clamped to their documented ranges,
and the consistency draw is scaled by 0.8 before clamping exactly when the
drawn reaction speed exceeds 1.2. -/
theorem generate_random_clamped (name : String) (g c f cl : ℝ) :
    (0.3 ≤ (generate_random name g c f cl).reaction_speed ∧
      (generate_random name g c f cl).reaction_speed ≤ 2.0) ∧
    (0.1 ≤ (generate_random name g c f cl).consistency ∧
      (generate_random name g c f cl).consistency ≤ 1.0) ∧
    (0.0 ≤ (generate_random name g c f cl).fatigue_rate ∧
      (generate_random name g c f cl).fatigue_rate ≤ 1.0) ∧
    (0.0 ≤ (generate_random name g c f cl).concentration_level ∧
      (generate_random name g c f cl).concentration_level ≤ 1.0) ∧
    (0.1 ≤ (generate_random name g c f cl).rhythm_variation ∧
      (generate_random name g c f cl).rhythm_variation ≤ 1.0) ∧
    (g > 1.2 → (generate_random name g c f cl).consistency = pyClamp 0.1 1.0 (c * 0.8)) ∧
    (¬ g > 1.2 → (generate_random name g c f cl).consistency = pyClamp 0.1 1.0 c) := by
  unfold generate_random
  refine ⟨⟨le_pyClamp _ _ _, pyClamp_le _ _ _ (by norm_num)⟩,
    ⟨le_pyClamp _ _ _, pyClamp_le _ _ _ (by norm_num)⟩,
    ⟨le_pyClamp _ _ _, pyClamp_le _ _ _ (by norm_num)⟩,
    ⟨le_pyClamp _ _ _, pyClamp_le _ _ _ (by norm_num)⟩,
    ⟨le_pyClamp _ _ _, pyClamp_le _ _ _ (by norm_num)⟩,
    fun h => by simp only [if_pos h], fun h => by simp only [if_neg h]⟩

/-- Concrete run of C5: a fast draw (1.5 > 1.2) scales consistency 1.0 to
0.8 before clamping. -/
theorem generate_random_clamped_witness :
    (generate_random "w" 1.5 1.0 0.5 0.5).consistency = 0.8 ∧
    (generate_random "w" 1.5 1.0 0.5 0.5).reaction_speed = 1.5 := by
  have h := (generate_random_clamped "w" 1.5 1.0 0.5 0.5).2.2.2.2.2.1 (by norm_num)
  constructor
  · rw [h]
    unfold pyClamp
    norm_num
  · show pyClamp 0.3 2.0 1.5 = 1.5
    unfold pyClamp
    norm_num

/-! ### to_dict / from_dict

`asdict` flattens the dataclass into a `{field name: value}` mapping in
declaration order; `cls(**data)` reconstructs by keyword, failing if an
expected key is missing or has the wrong type.  (Unexpected extra keys,
which also raise in Python, are ignored here; `to_dict` never produces
them.) -/

inductive FieldValue where
  | str (s : String)
  | num (x : ℝ)

/-- `HumanProfile.to_dict` (via `dataclasses.asdict`). -/
def to_dict (p : HumanProfile) : List (String × FieldValue) :=
  [("name", .str p.name),
   ("reaction_speed", .num p.reaction_speed),
   ("consistency", .num p.consistency),
   ("fatigue_rate", .num p.fatigue_rate),
   ("concentration_level", .num p.concentration_level),
   ("rhythm_variation", .num p.rhythm_variation)]

def lookupStr (d : List (String × FieldValue)) (k : String) : Option String :=
  match d.lookup k with
  | some (.str s) => some s
  | _ => none

def lookupNum (d : List (String × FieldValue)) (k : String) : Option ℝ :=
  match d.lookup k with
  | some (.num x) => some x
  | _ => none

/-- `HumanProfile.from_dict`: `cls(**data)`, keyword reconstruction. -/
def from_dict (d : List (String × FieldValue)) : Option HumanProfile :=
  match lookupStr d "name", lookupNum d "reaction_speed", lookupNum d "consistency",
      lookupNum d "fatigue_rate", lookupNum d "concentration_level",
      lookupNum d "rhythm_variation" with
  | some n, some rs, some c, some f, some cl, some rv =>
      some ⟨n, rs, c, f, cl, rv⟩
  | _, _, _, _, _, _ => none

/-- **C10.**  Serialising a profile to its flat dictionary and
reconstructing it is the identity on all six fields. -/
theorem profile_dict_roundtrip (p : HumanProfile) :
    from_dict (to_dict p) = some p := by
  rfl

/-! ## PerlinNoise (src/src/human_behavior.py) -/

/-- The shuffled-and-doubled permutation table `self.p` (512 entries of
0..255); its exact contents are fixed at construction from the seed. -/
structure PerlinNoise where
  p : ℕ → ℕ

namespace PerlinNoise

/-- Quintic fade `6t^5 - 15t^4 + 10t^3` written as in the source. -/
noncomputable def fade (t : ℝ) : ℝ := t * t * t * (t * (t * 6 - 15) + 10)

/-- Linear interpolation. -/
noncomputable def lerp (a b t : ℝ) : ℝ := a + t * (b - a)

/-- Gradient: `x if hash & 1 == 0 else -x`. -/
noncomputable def grad (hash_val : ℕ) (x : ℝ) : ℝ := if hash_val % 2 = 0 then x else -x

/-- 1-D Perlin noise.  `int(np.floor(x)) & 255` is `⌊x⌋ mod 256`. -/
noncomputable def noise (pn : PerlinNoise) (x : ℝ) : ℝ :=
  let X : ℕ := (⌊x⌋ % 256).toNat
  let xf : ℝ := x - ⌊x⌋
  let u := fade xf
  let a := pn.p X
  let b := pn.p (X + 1)
  lerp (grad a xf) (grad b (xf - 1)) u

theorem noise_zero (pn : PerlinNoise) : pn.noise 0 = 0 := by
  unfold noise lerp grad fade
  norm_num

end PerlinNoise

/-! ## HumanLikeRandomizer state and helper methods -/

/-- Behavioral patterns (`BEHAVIOR_PATTERNS` keys). -/
inductive Pattern where
  | steady | accelerating | decelerating | erratic | rhythmic | tired
deriving DecidableEq

/-- `BEHAVIOR_PATTERNS[pattern]['weight']`. -/
noncomputable def patternWeight : Pattern → ℝ
  | .steady => 0.4
  | .accelerating => 0.15
  | .decelerating => 0.15
  | .erratic => 0.1
  | .rhythmic => 0.15
  | .tired => 0.05

/-- `BEHAVIOR_PATTERNS[pattern]['variation']`. -/
noncomputable def patternVariation : Pattern → ℝ
  | .steady => 0.1
  | .accelerating => 0.2
  | .decelerating => 0.2
  | .erratic => 0.4
  | .rhythmic => 0.15
  | .tired => 0.3

/-- The mutable fields of a `HumanLikeRandomizer` instance. -/
structure RandomizerState where
  profile : HumanProfile
  session_start : ℝ
  action_count : ℕ
  last_delays : List ℝ            -- deque(maxlen=20)
  micro_rhythm_phase : ℝ
  concentration_phase : ℝ
  fatigue_accumulator : ℝ
  last_action_time : ℝ
  streak_counter : ℤ
  last_pattern_type : Option Pattern
  perlin : PerlinNoise
  perlin_offset : ℝ
  delay_memory : List ℝ           -- plain list, trimmed to 50
  distraction_threshold : ℝ
  last_distraction_time : ℝ
  micro_habits : List (String × ℝ)  -- initialised empty, never used
  skill_improvement_rate : ℝ
  action_quality : ℝ

/-- `get_fatigue_factor`.  `t1`, `t2` are the two `time.time()` reads; the
method also mutates `fatigue_accumulator`. -/
noncomputable def get_fatigue_factor (s : RandomizerState) (t1 t2 : ℝ) :
    ℝ × RandomizerState :=
  let session_duration := t1 - s.session_start
  let base_fatigue := min 1.0 ((session_duration / 3600) * s.profile.fatigue_rate)
  let time_since_last := t2 - s.last_action_time
  let base_fatigue :=
    if time_since_last > 10 then max 0 (base_fatigue - min 0.3 (time_since_last / 60))
    else base_fatigue
  let acc := min 0.5 (s.fatigue_accumulator + 0.001 * s.profile.fatigue_rate)
  (1.0 + (base_fatigue + acc) * 0.5, { s with fatigue_accumulator := acc })

/-- `get_concentration_wave` (pure; `t` is the `time.time()` read). -/
noncomputable def get_concentration_wave (s : RandomizerState) (t : ℝ) : ℝ :=
  let primary_wave := Real.sin (t / 120 + s.concentration_phase)
  let secondary_wave := Real.sin (t / 45) * 0.3
  let micro_wave := Real.sin (t / 8) * 0.1
  let concentration := s.profile.concentration_level +
    (primary_wave * 0.2 + secondary_wave + micro_wave) * (1.0 - s.profile.concentration_level)
  max 0.3 (min 1.0 concentration)

/-- `get_micro_variations` (pure; `t` is the `time.time()` read and `g4`
the `random.gauss(0, 0.01)` draw). -/
noncomputable def get_micro_variations (s : RandomizerState) (t g4 : ℝ) : ℝ :=
  let v1 := Real.sin (t * 2.3 + s.micro_rhythm_phase) * 0.02
  let v2 := Real.sin (t * 5.7) * 0.01
  let v3 := Real.sin (t * 11.3) * 0.005
  (v1 + v2 + v3 + g4) * s.profile.rhythm_variation

/-- `get_circadian_rhythm_factor`.  `hour` is `now.hour + now.minute/60`
(in `[0, 24)`); `r ∈ [0, 1]` is the `random.random()` underlying the branch's
`random.uniform(0, c) = c * random.random()` draw. -/
noncomputable def get_circadian_rhythm_factor (hour r : ℝ) : ℝ :=
  if 6 ≤ hour ∧ hour < 9 then 1.0 + (hour - 6) / 3 * 0.1
  else if 9 ≤ hour ∧ hour < 14 then 0.95 - 0.1 * r
  else if 14 ≤ hour ∧ hour < 17 then 1.0 + 0.15 * r
  else if 17 ≤ hour ∧ hour < 22 then 1.05 + (hour - 17) / 5 * 0.15
  else 1.2 + 0.3 * r

/-- `get_perlin_noise_variation` (pure; `t` is the `time.time()` read). -/
noncomputable def get_perlin_noise_variation (s : RandomizerState) (t : ℝ) : ℝ :=
  let current_time := t - s.session_start
  s.perlin.noise ((current_time + s.perlin_offset) * 0.05) * 0.1 +
    s.perlin.noise ((current_time + s.perlin_offset) * 0.2) * 0.05

/-- `check_distraction`.  `t1`, `t2` are the two `time.time()` reads and
`r` the `random.random()` draw. -/
noncomputable def check_distraction (s : RandomizerState) (t1 t2 r : ℝ) :
    Bool × RandomizerState :=
  if t1 - s.last_distraction_time < 30 then (false, s)
  else if r < (1.0 - s.profile.concentration_level) * 0.05 then
    (true, { s with last_distraction_time := t2 })
  else (false, s)

/-- `get_delay_from_memory` (pure). -/
noncomputable def get_delay_from_memory (s : RandomizerState) (base_delay : ℝ) : ℝ :=
  if s.delay_memory = [] then base_delay
  else
    -- recent_delays = delay_memory[-5:], oldest of the five first
    let recent_delays := s.delay_memory.drop (s.delay_memory.length - 5)
    -- weights = [0.4, 0.25, 0.2, 0.1, 0.05][:len][::-1]
    let weights := (([0.4, 0.25, 0.2, 0.1, 0.05] : List ℝ).take recent_delays.length).reverse
    let memory_influence :=
      ((recent_delays.zip weights).map fun dw => dw.1 * dw.2).sum / weights.sum
    let consistency_factor := s.profile.consistency
    base_delay * (1 - consistency_factor * 0.3) + memory_influence * consistency_factor * 0.3

/-- `apply_skill_progression` (mutates `action_quality`). -/
noncomputable def apply_skill_progression (s : RandomizerState) : ℝ × RandomizerState :=
  let q := min 1.0 (s.action_quality + s.skill_improvement_rate)
  (1.0 - (q - 0.5) * 0.1, { s with action_quality := q })

/-- `get_lognormal_delay`.  `np.random.lognormal(mu, sigma)` is
`exp(mu + sigma * z)` for a standard-normal draw `z` (support: all reals). -/
noncomputable def get_lognormal_delay (mean variation z : ℝ) : ℝ :=
  let sigma := Real.sqrt (Real.log (1 + variation ^ 2))
  let mu := Real.log mean - sigma ^ 2 / 2
  Real.exp (mu + sigma * z)

/-- The weight table computed inside `select_behavior_pattern`, given the
value returned by its `get_fatigue_factor()` call.  Only the supports of
`random.choices` matter for the oracle: every weight is positive
(see `select_weight_pos`). -/
noncomputable def select_weight (s : RandomizerState) (fatigue : ℝ) (pattern : Pattern) : ℝ :=
  let w := patternWeight pattern
  let w := if some pattern = s.last_pattern_type then w * 0.3 else w
  if pattern = .steady ∧ s.profile.consistency > 0.7 then w * 1.5
  else if pattern = .erratic ∧ s.profile.consistency < 0.3 then w * 1.5
  else if pattern = .tired ∧ fatigue > 1.3 then w * 2.0
  else w

theorem patternWeight_pos (p : Pattern) : 0 < patternWeight p := by
  cases p <;> norm_num [patternWeight]

theorem select_weight_pos (s : RandomizerState) (fatigue : ℝ) (p : Pattern) :
    0 < select_weight s fatigue p := by
  unfold select_weight
  have h := patternWeight_pos p
  split_ifs <;> positivity

/-- `select_behavior_pattern`.  The `random.choices` outcome is the oracle
input `choice` (any pattern: all weights are positive) and `streak_draw` the
`random.randint(3, 15)` outcome.  Evaluating the `tired` weight calls
`get_fatigue_factor()`, which mutates the accumulator. -/
noncomputable def select_behavior_pattern (s : RandomizerState) (tf1 tf2 : ℝ)
    (choice : Pattern) (streak_draw : ℤ) : Pattern × RandomizerState :=
  let fs := get_fatigue_factor s tf1 tf2
  let s := fs.2
  if some choice ≠ s.last_pattern_type then
    (choice, { s with streak_counter := streak_draw, last_pattern_type := some choice })
  else
    (choice, s)

/-! ## HumanLikeRandomizer.get_humanized_delay -/

/-- The optional `context` dict: `context.get('urgent')` (falsy default) and
`context.get('repetition', 0)`. -/
structure DelayContext where
  urgent : Bool
  repetition : ℤ

/-- One call's worth of external effects, in execution order: every
`time.time()` read and every RNG draw of `get_humanized_delay` and of the
methods it calls. -/
structure DelayOracle where
  sel_t1 : ℝ          -- select path: get_fatigue_factor's time reads
  sel_t2 : ℝ
  pattern_choice : Pattern  -- random.choices outcome (all weights positive)
  streak_draw : ℤ     -- random.randint(3, 15)
  z_pattern : ℝ       -- std-normal draw behind np.random.lognormal
  erratic_u : ℝ       -- random.uniform(min_delay, max_delay)
  erratic_r : ℝ       -- random.random() for the 15% spike
  erratic_small : Bool  -- random.choice([0.6, 1.9]): true picks 0.6
  boost_r : ℝ         -- random.random() for the 85% boost branch
  z_boost : ℝ         -- std-normal draw for the boost lognormal
  perlin_t : ℝ        -- time read in get_perlin_noise_variation
  circ_hour : ℝ       -- datetime.now() hour + minute/60
  circ_r : ℝ          -- random.random() behind the circadian uniform draw
  fat_t1 : ℝ          -- classic-modifier get_fatigue_factor time reads
  fat_t2 : ℝ
  wave_t : ℝ          -- time read in get_concentration_wave
  micro_t : ℝ         -- time read in get_micro_variations
  micro_g : ℝ         -- random.gauss(0, 0.01)
  dis_t1 : ℝ          -- check_distraction time reads
  dis_t2 : ℝ
  dis_r : ℝ           -- random.random() in check_distraction
  dis_u : ℝ           -- random.uniform(0.5, 2.5)
  urgent_u : ℝ        -- random.uniform(0.65, 0.75)
  limit_lo_r : ℝ      -- random.random() for the 90% lower clamp
  limit_lo_u : ℝ      -- random.uniform(0, 0.08)
  limit_hi_r : ℝ      -- random.random() for the 92% upper clamp
  limit_hi_u : ℝ      -- random.uniform(0, 0.1)
  end_t : ℝ           -- last_action_time := time.time()

/-- Supports of the bounded draws of one call (`random.random() ∈ [0, 1]`,
`random.uniform(a, b) ∈ [a, b]`, `random.randint(3, 15) ∈ [3, 15]`;
gaussian and standard-normal draws range over all reals). -/
def DelayOracle.Valid (o : DelayOracle) (min_delay max_delay : ℝ) : Prop :=
  min_delay ≤ o.erratic_u ∧ o.erratic_u ≤ max_delay ∧
  0 ≤ o.erratic_r ∧ o.erratic_r ≤ 1 ∧
  0 ≤ o.boost_r ∧ o.boost_r ≤ 1 ∧
  0 ≤ o.circ_hour ∧ o.circ_hour < 24 ∧
  0 ≤ o.circ_r ∧ o.circ_r ≤ 1 ∧
  0 ≤ o.dis_r ∧ o.dis_r ≤ 1 ∧
  0.5 ≤ o.dis_u ∧ o.dis_u ≤ 2.5 ∧
  0.65 ≤ o.urgent_u ∧ o.urgent_u ≤ 0.75 ∧
  3 ≤ o.streak_draw ∧ o.streak_draw ≤ 15 ∧
  0 ≤ o.limit_lo_r ∧ o.limit_lo_r ≤ 1 ∧
  0 ≤ o.limit_lo_u ∧ o.limit_lo_u ≤ 0.08 ∧
  0 ≤ o.limit_hi_r ∧ o.limit_hi_r ≤ 1 ∧
  0 ≤ o.limit_hi_u ∧ o.limit_hi_u ≤ 0.1

/-- The boundary-enforcement block of `get_humanized_delay`
("Contraindre aux limites avec flexibilité humaine"). -/
noncomputable def enforce_limits (min_delay max_delay delay r_lo u_lo r_hi u_hi : ℝ) : ℝ :=
  if delay < min_delay then
    if r_lo < 0.90 then min_delay + u_lo
    else max (min_delay * 0.85) delay
  else if delay > max_delay then
    if r_hi < 0.92 then max_delay - u_hi
    else min (max_delay * 1.15) delay
  else delay

/-- Append to a bounded buffer: `delay_memory.append(d)` followed by
`pop(0)` beyond 50 entries, and the deque(maxlen=20) eviction for
`last_delays`. -/
def appendTrim (cap : ℕ) (l : List ℝ) (x : ℝ) : List ℝ :=
  if (l ++ [x]).length > cap then (l ++ [x]).tail else l ++ [x]

/-- `get_humanized_delay(min_delay, max_delay, context, is_boost)`:
returns the delay and the mutated instance state. -/
noncomputable def get_humanized_delay (s : RandomizerState) (o : DelayOracle)
    (min_delay max_delay : ℝ) (context : DelayContext) (is_boost : Bool) :
    ℝ × RandomizerState :=
  let s := { s with action_count := s.action_count + 1 }
  -- select or continue a pattern
  let ps :=
    if s.streak_counter ≤ 0 then
      select_behavior_pattern s o.sel_t1 o.sel_t2 o.pattern_choice o.streak_draw
    else
      -- source reads self.last_pattern_type here; a state with a positive
      -- streak and no pattern would raise KeyError below and is unreachable
      (s.last_pattern_type.getD .steady, { s with streak_counter := s.streak_counter - 1 })
  let pattern := ps.1
  let s := ps.2
  let base_mean := (min_delay + max_delay) / 2
  let delay :=
    match pattern with
    | .steady => get_lognormal_delay base_mean (patternVariation .steady) o.z_pattern
    | .accelerating =>
        let progress := min 1.0 ((s.streak_counter : ℝ) / 10)
        let target_mean := max_delay - (max_delay - min_delay) * progress * 0.7
        get_lognormal_delay target_mean (patternVariation .accelerating) o.z_pattern
    | .decelerating =>
        let progress := min 1.0 ((s.streak_counter : ℝ) / 10)
        let target_mean := min_delay + (max_delay - min_delay) * progress * 0.7
        get_lognormal_delay target_mean (patternVariation .decelerating) o.z_pattern
    | .erratic =>
        let d := o.erratic_u
        if o.erratic_r < 0.15 then d * (if o.erratic_small then 0.6 else 1.9) else d
    | .rhythmic =>
        let rhythm_base := base_mean +
          Real.sin ((s.action_count : ℝ) * 0.5) * (max_delay - min_delay) * 0.3
        get_lognormal_delay (max min_delay rhythm_base) (patternVariation .rhythmic * 0.8) o.z_pattern
    | .tired => get_lognormal_delay (max_delay * 0.9) (patternVariation .tired * 1.2) o.z_pattern
  -- boost mode
  let delay :=
    if is_boost then
      if o.boost_r < 0.85 then
        get_lognormal_delay (min_delay + 0.25 * (max_delay - min_delay)) 0.15 o.z_boost
      else
        get_lognormal_delay (base_mean * 0.7) 0.2 o.z_boost
    else delay
  -- memory autocorrelation, organic noise, circadian rhythm
  let delay := get_delay_from_memory s delay
  let delay := delay * (1.0 + get_perlin_noise_variation s o.perlin_t)
  let delay := delay * get_circadian_rhythm_factor o.circ_hour o.circ_r
  -- skill progression
  let sk := apply_skill_progression s
  let delay := delay * sk.1
  let s := sk.2
  -- classic modifiers
  let delay := delay * s.profile.reaction_speed
  let ff := get_fatigue_factor s o.fat_t1 o.fat_t2
  let delay := delay * ff.1
  let s := ff.2
  let delay := delay * get_concentration_wave s o.wave_t
  let delay := delay + get_micro_variations s o.micro_t o.micro_g
  -- random distractions
  let ds := check_distraction s o.dis_t1 o.dis_t2 o.dis_r
  let s := ds.2
  let delay := if ds.1 then delay + o.dis_u else delay
  -- context
  let delay := if context.urgent then delay * o.urgent_u else delay
  let delay :=
    if context.repetition > 10 then
      delay * min 1.3 (1.0 + ((context.repetition : ℝ) - 10) * 0.01)
    else delay
  -- boundary enforcement with humanized overshoot
  let delay := enforce_limits min_delay max_delay delay
    o.limit_lo_r o.limit_lo_u o.limit_hi_r o.limit_hi_u
  -- record
  let s := { s with delay_memory := appendTrim 50 s.delay_memory delay }
  let s := { s with last_delays := appendTrim 20 s.last_delays delay }
  let s := { s with last_action_time := o.end_t }
  (delay, s)

/-! ## C2: delay bounds -/

theorem enforce_limits_bounds (min_delay max_delay delay r_lo u_lo r_hi u_hi : ℝ)
    (hmin : 0 < min_delay) (hlt : min_delay < max_delay)
    (hlo0 : 0 ≤ u_lo) (hlo1 : u_lo ≤ 0.08) (hhi0 : 0 ≤ u_hi) (hhi1 : u_hi ≤ 0.1) :
    min (min_delay * 0.85) (max_delay - 0.1) ≤
      enforce_limits min_delay max_delay delay r_lo u_lo r_hi u_hi ∧
    enforce_limits min_delay max_delay delay r_lo u_lo r_hi u_hi ≤
      max (max_delay * 1.15) (min_delay + 0.08) := by
  have hma := min_le_left (min_delay * 0.85) (max_delay - 0.1)
  have hmb := min_le_right (min_delay * 0.85) (max_delay - 0.1)
  have hxa := le_max_left (max_delay * 1.15) (min_delay + 0.08)
  have hxb := le_max_right (max_delay * 1.15) (min_delay + 0.08)
  unfold enforce_limits
  split_ifs with h1 h2 h3 h4
  · exact ⟨by linarith, by linarith⟩
  · exact ⟨le_trans hma (le_max_left _ _), max_le (by linarith) (by linarith)⟩
  · exact ⟨by linarith, by linarith⟩
  · exact ⟨le_min (by linarith) (by linarith), le_trans (min_le_left _ _) hxa⟩
  · exact ⟨by linarith, by linarith⟩

/-- **C2 (amended).**  For valid `0 < min < max` and every support-valid RNG
outcome, the returned delay lies in
`[min (0.85·min) (max − 0.1), max (1.15·max) (min + 0.08)]`.  (The claimed
interval `[0.85·min, 1.15·max]` fails when `max − min` is small: the 90%/92%
clamp branches return `min + uniform(0, 0.08)` resp. `max − uniform(0, 0.1)`,
which can overshoot it — see the counterexample.) -/
theorem delay_bounds_amended (s : RandomizerState) (o : DelayOracle)
    (min_delay max_delay : ℝ) (context : DelayContext) (is_boost : Bool)
    (hmin : 0 < min_delay) (hlt : min_delay < max_delay)
    (hval : o.Valid min_delay max_delay) :
    min (min_delay * 0.85) (max_delay - 0.1) ≤
      (get_humanized_delay s o min_delay max_delay context is_boost).1 ∧
    (get_humanized_delay s o min_delay max_delay context is_boost).1 ≤
      max (max_delay * 1.15) (min_delay + 0.08) := by
  obtain ⟨-, -, -, -, -, -, -, -, -, -, -, -, -, -, -, -, -, -, -, -,
    hlo0, hlo1, -, -, hhi0, hhi1⟩ := hval
  exact enforce_limits_bounds min_delay max_delay _ _ _ _ _ hmin hlt hlo0 hlo1 hhi0 hhi1

/-- A concrete profile/state/oracle used to exercise `get_humanized_delay`:
a fully concentrated (level 1.0), fatigue-free profile, session times and
phases all 0, an `erratic` streak in progress. -/
noncomputable def cProfile : HumanProfile := ⟨"c", 1.0, 0.5, 0, 1.0, 0.1⟩

noncomputable def cPerlin : PerlinNoise := ⟨fun _ => 0⟩

noncomputable def cState : RandomizerState :=
  ⟨cProfile, 0, 0, [], 0, 0, 0, 0, 5, some .erratic, cPerlin, 0, [], 0.99, 0, [],
    0.0001, 0.5⟩

noncomputable def cOracle : DelayOracle :=
  ⟨0, 0, .erratic, 5, 0, 0.51, 0.1, false, 0.5, 0, 0, 14, 0, 0, 0, 0, 0, 0,
    0, 0, 0.5, 0.5, 0.7, 0.5, 0.04, 0.5, 0.1, 0⟩

/-- Evaluation of the concrete call: the erratic spike (`×1.9`) pushes the
delay above `max`, and the 92% clamp branch returns `max − 0.1 = 0.41`. -/
theorem cDelay_eval :
    (get_humanized_delay cState cOracle 0.5 0.51 ⟨false, 0⟩ false).1 = 0.41 := by
  unfold get_humanized_delay cState cOracle cProfile cPerlin
  norm_num [select_behavior_pattern, get_lognormal_delay, get_delay_from_memory,
    get_perlin_noise_variation, PerlinNoise.noise_zero, get_circadian_rhythm_factor,
    apply_skill_progression, get_fatigue_factor, get_concentration_wave,
    get_micro_variations, check_distraction, enforce_limits, appendTrim,
    Real.sin_zero, patternVariation, min_def, max_def]

/-- Counterexample to **C2** as stated: with `min = 0.5`, `max = 0.51` and a
support-valid RNG outcome, the returned delay `0.41` is *below*
`0.85 × min = 0.425`. -/
theorem delay_bounds_claim_false :
    cOracle.Valid 0.5 0.51 ∧ (0 : ℝ) < 0.5 ∧ (0.5 : ℝ) < 0.51 ∧
    (get_humanized_delay cState cOracle 0.5 0.51 ⟨false, 0⟩ false).1 < 0.85 * 0.5 := by
  refine ⟨?_, by norm_num, by norm_num, ?_⟩
  · norm_num [DelayOracle.Valid, cOracle]
  · rw [cDelay_eval]
    norm_num

/-- Concrete application of the amended C2 bound. -/
theorem delay_bounds_amended_witness :
    min (0.5 * 0.85) (0.51 - 0.1) ≤
      (get_humanized_delay cState cOracle 0.5 0.51 ⟨false, 0⟩ false).1 ∧
    (get_humanized_delay cState cOracle 0.5 0.51 ⟨false, 0⟩ false).1 ≤
      max (0.51 * 1.15) (0.5 + 0.08) :=
  delay_bounds_amended cState cOracle 0.5 0.51 ⟨false, 0⟩ false (by norm_num) (by norm_num)
    (by norm_num [DelayOracle.Valid, cOracle])

/-! ## C6/C7: state evolution across calls -/

theorem fatigue_snd (s : RandomizerState) (t1 t2 : ℝ) :
    (get_fatigue_factor s t1 t2).2 =
      { s with
        fatigue_accumulator :=
          min 0.5 (s.fatigue_accumulator + 0.001 * s.profile.fatigue_rate) } := rfl

theorem skill_snd (s : RandomizerState) :
    (apply_skill_progression s).2 =
      { s with action_quality := min 1.0 (s.action_quality + s.skill_improvement_rate) } := rfl

theorem distraction_snd_fields (s : RandomizerState) (t1 t2 r : ℝ) :
    (check_distraction s t1 t2 r).2.action_quality = s.action_quality ∧
    (check_distraction s t1 t2 r).2.skill_improvement_rate = s.skill_improvement_rate ∧
    (check_distraction s t1 t2 r).2.delay_memory = s.delay_memory ∧
    (check_distraction s t1 t2 r).2.last_delays = s.last_delays := by
  unfold check_distraction
  split_ifs <;> exact ⟨rfl, rfl, rfl, rfl⟩

theorem select_snd_fields (s : RandomizerState) (t1 t2 : ℝ) (c : Pattern) (k : ℤ) :
    (select_behavior_pattern s t1 t2 c k).2.action_quality = s.action_quality ∧
    (select_behavior_pattern s t1 t2 c k).2.skill_improvement_rate = s.skill_improvement_rate ∧
    (select_behavior_pattern s t1 t2 c k).2.delay_memory = s.delay_memory ∧
    (select_behavior_pattern s t1 t2 c k).2.last_delays = s.last_delays := by
  unfold select_behavior_pattern
  dsimp only
  split_ifs <;> exact ⟨rfl, rfl, rfl, rfl⟩

/-- How one `get_humanized_delay` call transforms the skill and buffer
fields: quality moves to `min 1 (quality + rate)`, the rate is untouched,
and the returned delay is appended (with eviction) to both buffers. -/
theorem ghd_state (s : RandomizerState) (o : DelayOracle) (mn mx : ℝ)
    (c : DelayContext) (b : Bool) :
    (get_humanized_delay s o mn mx c b).2.action_quality =
      min 1.0 (s.action_quality + s.skill_improvement_rate) ∧
    (get_humanized_delay s o mn mx c b).2.skill_improvement_rate =
      s.skill_improvement_rate ∧
    (get_humanized_delay s o mn mx c b).2.delay_memory =
      appendTrim 50 s.delay_memory (get_humanized_delay s o mn mx c b).1 ∧
    (get_humanized_delay s o mn mx c b).2.last_delays =
      appendTrim 20 s.last_delays (get_humanized_delay s o mn mx c b).1 := by
  unfold get_humanized_delay
  dsimp only
  split
  · refine ⟨?_, ?_, ?_, ?_⟩ <;>
      simp only [distraction_snd_fields, fatigue_snd, skill_snd, select_snd_fields]
  · refine ⟨?_, ?_, ?_, ?_⟩ <;>
      simp only [distraction_snd_fields, fatigue_snd, skill_snd, select_snd_fields]

/-- One queued call to `get_humanized_delay`. -/
structure DelayCall where
  oracle : DelayOracle
  min_delay : ℝ
  max_delay : ℝ
  context : DelayContext
  is_boost : Bool

/-- Run a sequence of `get_humanized_delay` calls on one instance,
collecting the returned delays in order. -/
noncomputable def runDelays (s : RandomizerState) : List DelayCall → RandomizerState × List ℝ
  | [] => (s, [])
  | c :: cs =>
    let r := get_humanized_delay s c.oracle c.min_delay c.max_delay c.context c.is_boost
    let rest := runDelays r.2 cs
    (rest.1, r.1 :: rest.2)

theorem runDelays_rate (calls : List DelayCall) : ∀ s : RandomizerState,
    (runDelays s calls).1.skill_improvement_rate = s.skill_improvement_rate := by
  induction calls with
  | nil => intro s; rfl
  | cons c cs ih =>
    intro s
    simp only [runDelays]
    rw [ih]
    exact (ghd_state s c.oracle c.min_delay c.max_delay c.context c.is_boost).2.1

/-- Along any run from a state with quality ≤ 1 and nonnegative learning
rate, the quality never decreases and never exceeds 1. -/
theorem runDelays_quality (calls : List DelayCall) : ∀ s : RandomizerState,
    s.action_quality ≤ 1 → 0 ≤ s.skill_improvement_rate →
    s.action_quality ≤ (runDelays s calls).1.action_quality ∧
    (runDelays s calls).1.action_quality ≤ 1 := by
  induction calls with
  | nil => intro s hq _; exact ⟨le_refl _, hq⟩
  | cons c cs ih =>
    intro s hq hr
    simp only [runDelays]
    set s1 := (get_humanized_delay s c.oracle c.min_delay c.max_delay c.context c.is_boost).2 with hs1
    have hq1 : s1.action_quality = min 1.0 (s.action_quality + s.skill_improvement_rate) :=
      (ghd_state s c.oracle c.min_delay c.max_delay c.context c.is_boost).1
    have hr1 : s1.skill_improvement_rate = s.skill_improvement_rate :=
      (ghd_state s c.oracle c.min_delay c.max_delay c.context c.is_boost).2.1
    have hq1le : s1.action_quality ≤ 1 := by
      rw [hq1]
      exact min_le_of_left_le (by norm_num)
    have hmono : s.action_quality ≤ s1.action_quality := by
      rw [hq1]
      exact le_min (by linarith) (by linarith)
    have h := ih s1 hq1le (by rw [hr1]; exact hr)
    exact ⟨le_trans hmono h.1, h.2⟩

theorem runDelays_append (l1 l2 : List DelayCall) : ∀ s : RandomizerState,
    (runDelays s (l1 ++ l2)).1 = (runDelays (runDelays s l1).1 l2).1 := by
  induction l1 with
  | nil => intro s; rfl
  | cons c cs ih => intro s; simp only [List.cons_append, runDelays]; exact ih _

/-- **C6.**  On one instance, `action_quality` after `N` calls is at least
its value after any `M ≤ N` calls, and never exceeds 1, provided the state
satisfies the constructor-established invariant (`action_quality ≤ 1`,
`skill_improvement_rate ≥ 0`). -/
theorem action_quality_monotone (s : RandomizerState) (calls : List DelayCall) (M N : ℕ)
    (hq : s.action_quality ≤ 1) (hr : 0 ≤ s.skill_improvement_rate) (hMN : M ≤ N) :
    (runDelays s (calls.take M)).1.action_quality ≤
      (runDelays s (calls.take N)).1.action_quality ∧
    (runDelays s (calls.take N)).1.action_quality ≤ 1 := by
  have hsplit : calls.take N = calls.take M ++ ((calls.drop M).take (N - M)) := by
    rw [← List.take_add]
    rw [Nat.add_sub_cancel' hMN]
  have hM := runDelays_quality (calls.take M) s hq hr
  have hrM : (runDelays s (calls.take M)).1.skill_improvement_rate = s.skill_improvement_rate :=
    runDelays_rate (calls.take M) s
  have hrest := runDelays_quality ((calls.drop M).take (N - M)) (runDelays s (calls.take M)).1
    hM.2 (by rw [hrM]; exact hr)
  rw [hsplit, runDelays_append]
  exact ⟨hrest.1, hrest.2⟩

/-- Concrete application of C6 with one queued call. -/
theorem action_quality_monotone_witness :
    (runDelays cState ([⟨cOracle, 0.5, 0.51, ⟨false, 0⟩, false⟩].take 0)).1.action_quality ≤
      (runDelays cState ([⟨cOracle, 0.5, 0.51, ⟨false, 0⟩, false⟩].take 1)).1.action_quality ∧
    (runDelays cState ([⟨cOracle, 0.5, 0.51, ⟨false, 0⟩, false⟩].take 1)).1.action_quality ≤ 1 :=
  action_quality_monotone cState [⟨cOracle, 0.5, 0.51, ⟨false, 0⟩, false⟩] 0 1
    (by norm_num [cState]) (by norm_num [cState]) (by norm_num)

/-- The suffix of the `n` most recent entries. -/
def takeLast (n : ℕ) (l : List ℝ) : List ℝ := l.drop (l.length - n)

theorem takeLast_length (n : ℕ) (l : List ℝ) : (takeLast n l).length = min n l.length := by
  unfold takeLast
  rw [List.length_drop]
  omega

theorem appendTrim_length_le (cap : ℕ) (l : List ℝ) (x : ℝ) (h : l.length ≤ cap) :
    (appendTrim cap l x).length ≤ cap := by
  unfold appendTrim
  split_ifs with hlen <;> simp_all

theorem appendTrim_eq_takeLast (cap : ℕ) (l : List ℝ) (x : ℝ) (h : l.length ≤ cap) :
    appendTrim cap l x = takeLast cap (l ++ [x]) := by
  unfold appendTrim takeLast
  rcases Nat.lt_or_ge l.length cap with hlt | hge
  · rw [if_neg (by simp; omega)]
    rw [Nat.sub_eq_zero_of_le (by simp; omega), List.drop_zero]
  · have hcap : l.length = cap := le_antisymm h hge
    rw [if_pos (by simp; omega)]
    rw [show (l ++ [x]).length - cap = 1 by simp; omega, ← List.drop_one]

theorem takeLast_tail_append (n : ℕ) (xs ys : List ℝ) (h : xs.length = n + 1) :
    takeLast n (xs.tail ++ ys) = takeLast n (xs ++ ys) := by
  cases xs with
  | nil => simp at h
  | cons a xs' =>
    have hn : xs'.length = n := by simpa using h
    unfold takeLast
    simp only [List.tail_cons, List.cons_append, List.length_cons, List.length_append]
    rw [show xs'.length + ys.length - n = ys.length by omega,
      show xs'.length + ys.length + 1 - n = ys.length + 1 by omega,
      List.drop_succ_cons]

theorem takeLast_idem_append (n : ℕ) (xs ys : List ℝ) (h : xs.length ≤ n + 1) :
    takeLast n (takeLast n xs ++ ys) = takeLast n (xs ++ ys) := by
  rcases Nat.lt_or_ge xs.length (n + 1) with hlt | hge
  · have hx : takeLast n xs = xs := by
      unfold takeLast
      rw [Nat.sub_eq_zero_of_le (by omega), List.drop_zero]
    rw [hx]
  · have hxs : xs.length = n + 1 := le_antisymm h hge
    have ht : takeLast n xs = xs.tail := by
      unfold takeLast
      rw [hxs, Nat.add_sub_cancel_left, List.drop_one]
    rw [ht, takeLast_tail_append n xs ys hxs]

/-- Along any run, the delay memory is the 50 most recent recorded delays
appended to what survives of the starting buffer, and the buffers respect
their caps. -/
theorem runDelays_memory (calls : List DelayCall) : ∀ s : RandomizerState,
    s.delay_memory.length ≤ 50 → s.last_delays.length ≤ 20 →
    (runDelays s calls).1.delay_memory =
      takeLast 50 (s.delay_memory ++ (runDelays s calls).2) ∧
    (runDelays s calls).1.delay_memory.length ≤ 50 ∧
    (runDelays s calls).1.last_delays.length ≤ 20 := by
  induction calls with
  | nil =>
    intro s hm hl
    refine ⟨?_, hm, hl⟩
    simp only [runDelays]
    unfold takeLast
    rw [List.append_nil, Nat.sub_eq_zero_of_le hm, List.drop_zero]
  | cons c cs ih =>
    intro s hm hl
    simp only [runDelays]
    set r := get_humanized_delay s c.oracle c.min_delay c.max_delay c.context c.is_boost with hr
    have hmem : r.2.delay_memory = appendTrim 50 s.delay_memory r.1 :=
      (ghd_state s c.oracle c.min_delay c.max_delay c.context c.is_boost).2.2.1
    have hld : r.2.last_delays = appendTrim 20 s.last_delays r.1 :=
      (ghd_state s c.oracle c.min_delay c.max_delay c.context c.is_boost).2.2.2
    have hm1 : r.2.delay_memory.length ≤ 50 := by
      rw [hmem]; exact appendTrim_length_le 50 s.delay_memory r.1 hm
    have hl1 : r.2.last_delays.length ≤ 20 := by
      rw [hld]; exact appendTrim_length_le 20 s.last_delays r.1 hl
    have h := ih r.2 hm1 hl1
    refine ⟨?_, h.2.1, h.2.2⟩
    rw [h.1, hmem, appendTrim_eq_takeLast 50 s.delay_memory r.1 hm,
      takeLast_idem_append 50 (s.delay_memory ++ [r.1]) (runDelays r.2 cs).2 (by simp; omega)]
    simp

theorem runDelays_output_length (calls : List DelayCall) : ∀ s : RandomizerState,
    (runDelays s calls).2.length = calls.length := by
  induction calls with
  | nil => intro s; rfl
  | cons c cs ih => intro s; simp only [runDelays, List.length_cons]; rw [ih]

/-- **C7.**  Starting from empty buffers (as at construction), the delay
memory never exceeds 50 entries and the recent-delay deque never exceeds 20
at any point of the run; the memory always equals the 50 most recent
produced delays in production (FIFO) order, so after more than 50 calls it
holds exactly 50 entries with the oldest evicted first. -/
theorem delay_memory_bounded_fifo (s : RandomizerState) (calls : List DelayCall)
    (hm : s.delay_memory = []) (hl : s.last_delays = []) :
    (∀ k : ℕ, (runDelays s (calls.take k)).1.delay_memory.length ≤ 50 ∧
              (runDelays s (calls.take k)).1.last_delays.length ≤ 20) ∧
    (runDelays s calls).1.delay_memory =
      (runDelays s calls).2.drop ((runDelays s calls).2.length - 50) ∧
    (50 < calls.length → (runDelays s calls).1.delay_memory.length = 50) := by
  have hm0 : s.delay_memory.length ≤ 50 := by rw [hm]; simp
  have hl0 : s.last_delays.length ≤ 20 := by rw [hl]; simp
  refine ⟨fun k => ?_, ?_, fun hlen => ?_⟩
  · exact ⟨(runDelays_memory (calls.take k) s hm0 hl0).2.1,
      (runDelays_memory (calls.take k) s hm0 hl0).2.2⟩
  · have h := (runDelays_memory calls s hm0 hl0).1
    rw [h, hm, List.nil_append]
    rfl
  · have h := (runDelays_memory calls s hm0 hl0).1
    rw [h, hm, List.nil_append, takeLast_length, runDelays_output_length]
    omega

/-- Concrete application of C7: 51 identical queued calls from the fresh
state overflow the 50-entry memory. -/
theorem delay_memory_bounded_fifo_witness :
    (50 < (List.replicate 51 (⟨cOracle, 0.5, 0.51, ⟨false, 0⟩, false⟩ : DelayCall)).length) ∧
    (runDelays cState (List.replicate 51 ⟨cOracle, 0.5, 0.51, ⟨false, 0⟩, false⟩)).1.delay_memory.length = 50 := by
  refine ⟨by simp, ?_⟩
  exact (delay_memory_bounded_fifo cState (List.replicate 51 ⟨cOracle, 0.5, 0.51, ⟨false, 0⟩, false⟩)
    rfl rfl).2.2 (by simp)

/-! ## HumanLikeRandomizer.get_click_position_variation -/

/-- The window rectangle `(left, top, right, bottom)`. -/
structure Rect where
  left : ℤ
  top : ℤ
  right : ℤ
  bottom : ℤ

/-- External effects of one `get_click_position_variation` call:
one `time.time()` read (inside `get_concentration_wave`), the
`random.random()` branch draw, and the four gaussian draws expressed by
their standard-normal components (`random.gauss(0, sigma) = sigma * z`). -/
structure ClickOracle where
  wave_t : ℝ
  dev_r : ℝ
  z1 : ℝ
  z2 : ℝ
  z3 : ℝ
  z4 : ℝ

/-- Python's `int()` on a float truncates toward zero. -/
noncomputable def pyInt (x : ℝ) : ℤ := if 0 ≤ x then ⌊x⌋ else ⌈x⌉

/-- `get_click_position_variation(base_x, base_y, window_rect)`: returns the
clamped integer coordinates and the (unchanged) instance state. -/
noncomputable def get_click_position_variation (s : RandomizerState) (o : ClickOracle)
    (base_x base_y : ℤ) (window_rect : Rect) : (ℤ × ℤ) × RandomizerState :=
  let width := window_rect.right - window_rect.left
  let height := window_rect.bottom - window_rect.top
  let preferred_zone_x := (width : ℝ) * 0.1
  let preferred_zone_y := (height : ℝ) * 0.1
  let concentration := get_concentration_wave s o.wave_t
  let max_deviation_x := preferred_zone_x * (2.0 - concentration)
  let max_deviation_y := preferred_zone_y * (2.0 - concentration)
  let dx := if o.dev_r < 0.9 then max_deviation_x / 3 * o.z1 else max_deviation_x * o.z1
  let dy := if o.dev_r < 0.9 then max_deviation_y / 3 * o.z2 else max_deviation_y * o.z2
  -- micro-tremor: random.gauss(0, 2) * (1 - consistency)
  let dx := dx + 2 * o.z3 * (1.0 - s.profile.consistency)
  let dy := dy + 2 * o.z4 * (1.0 - s.profile.consistency)
  let new_x := pyInt ((base_x : ℝ) + dx)
  let new_y := pyInt ((base_y : ℝ) + dy)
  let margin : ℤ := 5
  let new_x := max margin (min (width - margin) new_x)
  let new_y := max margin (min (height - margin) new_y)
  ((new_x, new_y), s)

/-- **C9.**  `get_click_position_variation` reads the concentration wave and
the RNG but writes no field: the instance state is returned unchanged. -/
theorem click_position_no_mutation (s : RandomizerState) (o : ClickOracle)
    (base_x base_y : ℤ) (rect : Rect) :
    (get_click_position_variation s o base_x base_y rect).2 = s := rfl

noncomputable def cClickOracle : ClickOracle := ⟨0, 0.5, 0, 0, 0, 0⟩

/-- Counterexample to **C8** as stated: on a degenerate 5×5 window the
clamp `max(margin, min(width - margin, x))` returns `margin = 5`, which is
strictly above the claimed upper bound `width - margin = 0`. -/
theorem click_containment_claim_false :
    (get_click_position_variation cState cClickOracle 0 0 ⟨0, 0, 5, 5⟩).1.1 = 5 ∧
    ¬ ((get_click_position_variation cState cClickOracle 0 0 ⟨0, 0, 5, 5⟩).1.1 ≤
        (5 - 0) - 5) := by
  have hx : (get_click_position_variation cState cClickOracle 0 0 ⟨0, 0, 5, 5⟩).1.1 = 5 := by
    unfold get_click_position_variation
    dsimp only
    exact max_eq_left (le_trans (min_le_left _ _) (by norm_num))
  exact ⟨hx, by rw [hx]; norm_num⟩

/-- **C8 (amended).**  For every window rectangle at least `2·margin` wide
and tall (margin = 5), every base point, state and RNG outcome, the returned
coordinates satisfy `margin ≤ x ≤ width − margin` and
`margin ≤ y ≤ height − margin`. -/
theorem click_containment_amended (s : RandomizerState) (o : ClickOracle)
    (base_x base_y : ℤ) (rect : Rect)
    (hw : 10 ≤ rect.right - rect.left) (hh : 10 ≤ rect.bottom - rect.top) :
    5 ≤ (get_click_position_variation s o base_x base_y rect).1.1 ∧
    (get_click_position_variation s o base_x base_y rect).1.1 ≤
      (rect.right - rect.left) - 5 ∧
    5 ≤ (get_click_position_variation s o base_x base_y rect).1.2 ∧
    (get_click_position_variation s o base_x base_y rect).1.2 ≤
      (rect.bottom - rect.top) - 5 := by
  unfold get_click_position_variation
  dsimp only
  exact ⟨le_max_left _ _, max_le (by omega) (min_le_left _ _),
    le_max_left _ _, max_le (by omega) (min_le_left _ _)⟩

/-- Concrete application of the amended C8 bound on a 100×50 window. -/
theorem click_containment_amended_witness :
    5 ≤ (get_click_position_variation cState cClickOracle 20 20 ⟨0, 0, 100, 50⟩).1.1 ∧
    (get_click_position_variation cState cClickOracle 20 20 ⟨0, 0, 100, 50⟩).1.1 ≤
      (100 - 0) - 5 ∧
    5 ≤ (get_click_position_variation cState cClickOracle 20 20 ⟨0, 0, 100, 50⟩).1.2 ∧
    (get_click_position_variation cState cClickOracle 20 20 ⟨0, 0, 100, 50⟩).1.2 ≤
      (50 - 0) - 5 :=
  click_containment_amended cState cClickOracle 20 20 ⟨0, 0, 100, 50⟩
    (by norm_num) (by norm_num)

end Autofish
